import Mathlib

/-!
Verification of the room reconciliation engine and the estimate oracle adapter of the
SCRUM planning-poker application.  The definitions below are a shallow embedding of
`src/hooks/useSupabaseRoom.tsx`, `src/services/geminiService.jsx`, `src/types.ts` and
`src/constants.ts`: pure functions become Lean functions, the React `setRoomState`
updates become explicit state-to-state functions, the Supabase writes become lists of
database operations, and JavaScript numbers are modelled as rationals.
-/

namespace PlanningPoker

/-- `GamePhase` from `src/types.ts`. -/
inductive GamePhase
  | SETUP
  | VOTING
  | REVEALED
deriving DecidableEq, Repr

/-- `UserType` from `src/types.ts`. -/
inductive UserType
  | HUMAN
  | AI
deriving DecidableEq, Repr

/-- A JavaScript value of type `number | string` (vote values are such unions). -/
inductive JsValue
  | num (q : ℚ)
  | str (s : String)
deriving DecidableEq, Repr

/-- `value.toString()`: a number renders as its canonical decimal form, a string is
itself. -/
def jsToString : JsValue → String
  | .num q => toString q
  | .str s => s

/-- JavaScript loose equality `==` on the value shapes this app compares: a string is
loose-equal to a number exactly when it is that number's canonical string form. -/
def jsEq : JsValue → JsValue → Bool
  | .num x, .num y => x == y
  | .str s, .str t => s == t
  | .str s, .num y => s == jsToString (.num y)
  | .num x, .str t => jsToString (.num x) == t

/-- `Player` from `src/hooks/useSupabaseRoom.tsx`. -/
structure Player where
  id : String
  name : String
  type : UserType
  avatarUrl : String
  persona : Option String := none
deriving DecidableEq, Repr

/-- An entry of the `votes` record: `{ playerId, value, reasoning? }`. -/
structure Vote where
  playerId : String
  value : JsValue
  reasoning : Option String
deriving DecidableEq, Repr

/-- `Record<string, Vote>` modelled as an insertion-ordered association list, the way a
JavaScript object stores its enumerable string keys. -/
abbrev VoteMap := List (String × Vote)

/-- `RoomState` from `src/hooks/useSupabaseRoom.tsx`. -/
structure RoomState where
  roomId : String
  storyTitle : String
  storyDescription : String
  phase : GamePhase
  players : List Player
  votes : VoteMap
deriving DecidableEq, Repr

/-- A row of the `votes` table as written by the client (`supabase.from('votes')`). -/
structure VoteRow where
  id : String
  room_id : String
  player_id : String
  value : JsValue
  reasoning : Option String
deriving DecidableEq, Repr

/-- Property lookup `m[k]` on a JavaScript object. -/
def objGet (m : VoteMap) (k : String) : Option Vote :=
  (m.find? (fun kv => kv.1 == k)).map Prod.snd

/-- Spread update `{...m, [k]: v}` on a JavaScript object: an existing key keeps its
position and gets the new value, a fresh key is appended. -/
def objSet (m : VoteMap) (k : String) (v : Vote) : VoteMap :=
  if m.any (fun kv => kv.1 == k) then
    m.map (fun kv => if kv.1 == k then (k, v) else kv)
  else
    m ++ [(k, v)]

/-- `delete m[k]` on a JavaScript object. -/
def objDelete (m : VoteMap) (k : String) : VoteMap :=
  m.filter (fun kv => kv.1 != k)

/-- `FIBONACCI_DECK` from `src/types.ts`. -/
def FIBONACCI_DECK : List JsValue :=
  [.num 1, .num 2, .num 3, .num 5, .num 8, .num 13, .num 21, .str "?"]

/-! ## Change-event application (`useSupabaseRoom.tsx`, subscription handlers) -/

/-- Handler for a `players` INSERT event: `players: [...prev.players, newPlayer]`. -/
def applyPlayerInsert (s : RoomState) (p : Player) : RoomState :=
  { s with players := s.players ++ [p] }

/-- Handler for a `players` DELETE event: the roster is filtered by `p.id !==
deletedId` and the vote record is filtered by `v.playerId !== deletedId`. -/
def applyPlayerDelete (s : RoomState) (deletedId : String) : RoomState :=
  { s with
    players := s.players.filter (fun p => p.id != deletedId)
    votes := s.votes.filter (fun kv => kv.2.playerId != deletedId) }

/-- Handler for a `votes` INSERT or UPDATE event:
`votes: {...prev.votes, [newVote.player_id]: {playerId, value, reasoning}}`. -/
def applyVoteUpsert (s : RoomState) (row : VoteRow) : RoomState :=
  { s with
    votes := objSet s.votes row.player_id
      { playerId := row.player_id, value := row.value, reasoning := row.reasoning } }

/-- Handler for a `votes` DELETE event: `delete newVotes[deletedPlayerId]`. -/
def applyVoteDelete (s : RoomState) (deletedPlayerId : String) : RoomState :=
  { s with votes := objDelete s.votes deletedPlayerId }

/-! ## Mutation operations (`useSupabaseRoom.tsx`) -/

/-- A durable write issued against the Supabase store. -/
inductive DbOp
  | updateRoomStory (roomId title description : String)
  | updateRoomPhase (roomId : String) (phase : GamePhase)
  | deleteRoomVotes (roomId : String)
  | upsertVote (row : VoteRow)
deriving DecidableEq, Repr

/-- `updateStory`: writes the room row's story fields; it performs no local state
update (the local projection changes only when the write's echo arrives). -/
def updateStory (roomId title description : String) : List DbOp :=
  [.updateRoomStory roomId title description]

/-- `updatePhase`: immediately sets the local phase (clearing local votes exactly when
the new phase is VOTING), then updates the room row, then — only for VOTING — bulk
deletes the room's vote rows. -/
def updatePhase (roomId : String) (s : RoomState) (phase : GamePhase) :
    RoomState × List DbOp :=
  ({ s with
      phase := phase
      votes := if phase = GamePhase.VOTING then [] else s.votes },
   [DbOp.updateRoomPhase roomId phase] ++
     (if phase = GamePhase.VOTING then [DbOp.deleteRoomVotes roomId] else []))

/-- `handleVote`: returns early (no write at all) unless a current user exists and the
phase is VOTING; otherwise upserts a vote row whose `value` field is
`value.toString()` and whose `reasoning` is absent. -/
def handleVote (roomId : String) (currentUser : Option Player) (phase : GamePhase)
    (value : JsValue) : Option VoteRow :=
  match currentUser with
  | none => none
  | some u =>
    if phase ≠ GamePhase.VOTING then none
    else some
      { id := roomId ++ "-" ++ u.id
        room_id := roomId
        player_id := u.id
        value := .str (jsToString value)
        reasoning := none }

/-- `allVoted`: `roomState.players.length > 0 && roomState.players.every(p =>
!!roomState.votes[p.id])`. -/
def allVoted (s : RoomState) : Bool :=
  decide (s.players.length > 0) && s.players.all (fun p => (objGet s.votes p.id).isSome)

/-! ## Estimate oracle adapter (`src/services/geminiService.jsx`) -/

/-- The result record `{points, reasoning}` returned by `generateAiVote`. -/
structure AiVote where
  points : ℚ
  reasoning : String
deriving DecidableEq, Repr

/-- `validPoints` (also `cards`): the permitted numeric scale `[1,2,3,5,8,13,21]`. -/
def validPoints : List ℚ := [1, 2, 3, 5, 8, 13, 21]

/-- `validPoints.reduce((prev, curr) => Math.abs(curr - points) < Math.abs(prev -
points) ? curr : prev)`: JavaScript `reduce` without an initial value seeds the
accumulator with the first element. -/
def nearestScale (points : ℚ) : ℚ :=
  match validPoints with
  | [] => points
  | h :: t => t.foldl (fun prev curr => if |curr - points| < |prev - points| then curr else prev) h

/-- The value-snapping step of `generateAiVote`: a value already in `validPoints` is
kept, anything else is replaced by the `reduce` above. -/
def snapPoints (points : ℚ) : ℚ :=
  if points ∈ validPoints then points else nearestScale points

/-- The outcome of attempting the external oracle call, as distinguished by
`generateAiVote`: no client (missing API key or client construction failure), the call
throwing, a missing response text, a JSON parse failure, or a parsed payload. -/
inductive OracleOutcome
  | noClient
  | throws
  | emptyText
  | parseFails
  | ok (points : ℚ) (reasoning : String)
deriving DecidableEq, Repr

/-- Fallback rationale of the no-context fast path. -/
def noContextReasoning : String :=
  "I don't have any context on the story, so I'm providing a random estimate to participate."

/-- Fallback rationale when the oracle client is unavailable. -/
def offlineReasoning : String :=
  "I'm currently offline (API Key missing), but this looks like a medium effort task."

/-- Fallback rationale of the catch-all error handler. -/
def errorReasoning : String :=
  "I'm having trouble connecting to my brain, but this feels complex."

/-- JavaScript's `String.prototype.trim`: strip leading and trailing whitespace.
Implemented on the character list so that it evaluates by kernel reduction. -/
def jsTrim (s : String) : String :=
  ⟨((s.data.dropWhile Char.isWhitespace).reverse.dropWhile Char.isWhitespace).reverse⟩

/-- `generateAiVote`: the no-context fast path picks a random card (`pick` stands for
`Math.floor(Math.random() * cards.length)`); a missing client yields the offline
fallback; a throwing call, missing payload or parse failure is caught and yields the
error fallback; a parsed payload has its `points` snapped onto the permitted scale.
The function is total: no outcome propagates an error to the caller. -/
def generateAiVote (storyTitle storyDescription : String) (pick : Nat)
    (oracle : OracleOutcome) : AiVote :=
  if jsTrim storyTitle = "" ∧ jsTrim storyDescription = "" then
    { points := validPoints.getD (pick % validPoints.length) 1
      reasoning := noContextReasoning }
  else
    match oracle with
    | .noClient => { points := 8, reasoning := offlineReasoning }
    | .throws => { points := 8, reasoning := errorReasoning }
    | .emptyText => { points := 8, reasoning := errorReasoning }
    | .parseFails => { points := 8, reasoning := errorReasoning }
    | .ok points reasoning => { points := snapPoints points, reasoning := reasoning }

/-! ## Simulated-participant scheduler (`useSupabaseRoom.tsx`) -/

/-- `AiPersona` from `src/types.ts`. -/
structure AiPersona where
  id : String
  name : String
  role : String
  avatarSeed : String
  description : String
deriving DecidableEq, Repr

/-- `AI_PERSONAS` from `src/constants.ts`. -/
def AI_PERSONAS : List AiPersona :=
  [ { id := "ai-senior", name := "Sarah (Senior Dev)", role := "Senior Full Stack Engineer",
      avatarSeed := "sarah",
      description := "Cautious, considers technical debt and edge cases. Tends to estimate higher." },
    { id := "ai-junior", name := "Mike (Junior Dev)", role := "Junior Frontend Developer",
      avatarSeed := "mike",
      description := "Optimistic, focuses on the happy path. Tends to estimate lower." },
    { id := "ai-qa", name := "Alex (QA Lead)", role := "QA Automation Engineer",
      avatarSeed := "alex",
      description := "Focuses on testing complexity and potential bugs. Moderate to high estimates." },
    { id := "ai-pm", name := "Jessica (Product)", role := "Product Manager",
      avatarSeed := "jessica",
      description := "Focuses on business value, sometimes underestimates technical complexity." } ]

/-- The guard of the AI scheduling effect: it calls `triggerAiVotes` iff the phase is
VOTING, at least one AI player exists, no pass is in flight (`isProcessingAI` false),
and not every AI player's id has a (truthy) entry in the vote record. -/
def schedulerFires (s : RoomState) (isProcessingAI : Bool) : Bool :=
  decide (s.phase = GamePhase.VOTING) &&
    (let aiPlayers := s.players.filter (fun p => p.type == UserType.AI)
     decide (aiPlayers.length > 0) && !isProcessingAI &&
       !(aiPlayers.all (fun p => (objGet s.votes p.id).isSome)))

/-- `triggerAiVotes`: returns early when the phase is not VOTING or no AI players
exist; otherwise, for every AI player in roster order — regardless of whether that
player already has an estimate — it looks up the player's persona (skipping the player
when none matches), calls the oracle adapter (`oracle` stands for the awaited
`generateAiVote` result) and upserts a vote row carrying `result.points.toString()`
and the rationale. -/
def triggerAiVotes (roomId : String) (s : RoomState)
    (personas : List AiPersona) (oracle : AiPersona → AiVote) : List VoteRow :=
  if s.phase ≠ GamePhase.VOTING then []
  else
    let aiPlayers := s.players.filter (fun p => p.type == UserType.AI)
    if aiPlayers.length = 0 then []
    else
      aiPlayers.filterMap (fun player =>
        match personas.find? (fun q => q.id == player.id) with
        | none => none
        | some persona =>
          let result := oracle persona
          some
            { id := roomId ++ "-" ++ player.id
              room_id := roomId
              player_id := player.id
              value := .str (jsToString (.num result.points))
              reasoning := some result.reasoning })

/-! ## Concrete fixtures used to instantiate the theorems -/

/-- A concrete human participant. -/
def exPlayerA : Player :=
  { id := "a", name := "Alice", type := .HUMAN, avatarUrl := "u" }

/-- A concrete vote entry for `exPlayerA`. -/
def exVoteA : Vote := { playerId := "a", value := .str "5", reasoning := none }

/-- A concrete room state in the VOTING phase with one participant and one vote. -/
def exState : RoomState :=
  { roomId := "r", storyTitle := "t", storyDescription := "d",
    phase := .VOTING, players := [exPlayerA], votes := [("a", exVoteA)] }

/-- A room state whose roster carries a duplicated participant, as produced by
applying a `players` INSERT event for an id already on the roster. -/
def exStateDup : RoomState :=
  { roomId := "r", storyTitle := "t", storyDescription := "d",
    phase := .VOTING, players := [exPlayerA, exPlayerA], votes := [("a", exVoteA)] }

/-- A room state with two AI participants of which one already has an estimate. -/
def exStateAi : RoomState :=
  { roomId := "r", storyTitle := "t", storyDescription := "d", phase := .VOTING,
    players :=
      [ { id := "ai-senior", name := "Sarah (Senior Dev)", type := .AI, avatarUrl := "u" },
        { id := "ai-junior", name := "Mike (Junior Dev)", type := .AI, avatarUrl := "u" } ],
    votes := [("ai-senior", { playerId := "ai-senior", value := .str "5", reasoning := none })] }

/-- A deterministic stand-in for the awaited oracle adapter result. -/
def constOracle : AiPersona → AiVote := fun _ => { points := 5, reasoning := "ok" }

/-! ## Lemmas about the JavaScript-object operations -/

theorem objGet_nil (k : String) : objGet [] k = none := rfl

theorem objGet_cons (a : String × Vote) (t : VoteMap) (k : String) :
    objGet (a :: t) k = if a.1 = k then some a.2 else objGet t k := by
  by_cases h : a.1 = k
  · rw [objGet, List.find?_cons_of_pos _ (by simp [h]), if_pos h]
    simp [h]
  · rw [objGet, List.find?_cons_of_neg _ (by simp [h]), if_neg h]
    rfl

theorem objSet_fun_eq (k : String) (v : Vote) :
    (fun kv : String × Vote => if kv.1 == k then (k, v) else kv)
      = (fun kv : String × Vote => if kv.1 = k then (k, v) else kv) := by
  funext kv
  by_cases h : kv.1 = k <;> simp [h]

theorem any_key_iff (m : VoteMap) (k : String) :
    m.any (fun kv => kv.1 == k) = true ↔ k ∈ m.map Prod.fst := by
  rw [List.any_eq_true]
  constructor
  · rintro ⟨kv, hkv, hk⟩
    exact List.mem_map.mpr ⟨kv, hkv, by simpa using hk.symm⟩
  · intro hk
    rcases List.mem_map.mp hk with ⟨kv, hkv, hfst⟩
    exact ⟨kv, hkv, by simp [hfst]⟩

theorem any_eq_false_of_not (m : VoteMap) (p : String × Vote → Bool)
    (h : ¬ m.any p = true) : m.any p = false := by
  cases hb : m.any p with
  | false => rfl
  | true => exact absurd hb h

theorem objSet_of_mem (m : VoteMap) (k : String) (v : Vote)
    (h : m.any (fun kv => kv.1 == k) = true) :
    objSet m k v = m.map (fun kv => if kv.1 = k then (k, v) else kv) := by
  rw [objSet, if_pos h, objSet_fun_eq]

theorem objSet_of_not_mem (m : VoteMap) (k : String) (v : Vote)
    (h : m.any (fun kv => kv.1 == k) = false) :
    objSet m k v = m ++ [(k, v)] := by
  rw [objSet, if_neg (by simp [h])]

theorem objGet_map_self (m : VoteMap) (k : String) (v : Vote)
    (h : k ∈ m.map Prod.fst) :
    objGet (m.map (fun kv => if kv.1 = k then (k, v) else kv)) k = some v := by
  induction m with
  | nil => simp at h
  | cons a t ih =>
    by_cases ha : a.1 = k
    · simp [ha, objGet_cons]
    · have ht : k ∈ t.map Prod.fst := by
        rcases List.mem_map.mp h with ⟨kv, hkv, hfst⟩
        rcases List.mem_cons.mp hkv with rfl | hkv
        · exact absurd hfst ha
        · exact List.mem_map.mpr ⟨kv, hkv, hfst⟩
      rw [List.map_cons, if_neg ha, objGet_cons, if_neg ha]
      exact ih ht

theorem objGet_map_ne (m : VoteMap) (k k' : String) (v : Vote) (hne : k' ≠ k) :
    objGet (m.map (fun kv => if kv.1 = k then (k, v) else kv)) k' = objGet m k' := by
  induction m with
  | nil => rfl
  | cons a t ih =>
    by_cases ha : a.1 = k
    · rw [List.map_cons, if_pos ha, objGet_cons, objGet_cons,
        if_neg (fun hk : k = k' => hne hk.symm), if_neg (by rw [ha]; exact fun hk => hne hk.symm)]
      exact ih
    · rw [List.map_cons, if_neg ha, objGet_cons, objGet_cons]
      by_cases ha' : a.1 = k'
      · rw [if_pos ha', if_pos ha']
      · rw [if_neg ha', if_neg ha']
        exact ih

theorem objGet_append_single (m : VoteMap) (k k' : String) (v : Vote) :
    objGet (m ++ [(k, v)]) k' =
      if (objGet m k').isSome then objGet m k' else objGet [(k, v)] k' := by
  induction m with
  | nil => simp [objGet_nil]
  | cons a t ih =>
    by_cases ha : a.1 = k'
    · simp [objGet_cons, ha]
    · simp [objGet_cons, ha, ih]

theorem objGet_eq_none_of_not_any (m : VoteMap) (k : String)
    (h : m.any (fun kv => kv.1 == k) = false) :
    objGet m k = none := by
  induction m with
  | nil => rfl
  | cons a t ih =>
    simp only [List.any_cons, Bool.or_eq_false_iff, beq_eq_false_iff_ne, ne_eq] at h
    simp [objGet_cons, h.1, ih (by simpa using h.2)]

/-- Characterization of lookup after a spread update. -/
theorem objGet_objSet (m : VoteMap) (k k' : String) (v : Vote) :
    objGet (objSet m k v) k' = if k' = k then some v else objGet m k' := by
  by_cases hmem : m.any (fun kv => kv.1 == k) = true
  · rw [objSet_of_mem m k v hmem]
    by_cases hk : k' = k
    · subst hk
      rw [if_pos rfl]
      exact objGet_map_self m k' v ((any_key_iff m k').mp hmem)
    · rw [if_neg hk]
      exact objGet_map_ne m k k' v hk
  · rw [objSet_of_not_mem m k v (any_eq_false_of_not _ _ hmem)]
    rw [objGet_append_single]
    by_cases hk : k' = k
    · subst hk
      rw [objGet_eq_none_of_not_any m k' (any_eq_false_of_not _ _ hmem)]
      simp [objGet_cons]
    · by_cases hs : (objGet m k').isSome
      · simp [hs, hk]
      · rw [Option.not_isSome_iff_eq_none] at hs
        rw [hs, if_neg hk, if_neg (by simp), objGet_cons,
          if_neg (fun h : k = k' => hk h.symm), objGet_nil]

/-- The keys of a spread update: unchanged when the key was present, the key appended
otherwise. -/
theorem objSet_keys (m : VoteMap) (k : String) (v : Vote) :
    (objSet m k v).map Prod.fst =
      if m.any (fun kv => kv.1 == k) then m.map Prod.fst else m.map Prod.fst ++ [k] := by
  by_cases hmem : m.any (fun kv => kv.1 == k) = true
  · rw [objSet_of_mem m k v hmem, if_pos hmem, List.map_map]
    refine List.map_congr_left (fun kv _ => ?_)
    by_cases hk : kv.1 = k
    · simp [hk]
    · simp [hk]
  · rw [objSet_of_not_mem m k v (any_eq_false_of_not _ _ hmem), if_neg hmem]
    simp

/-- A spread update preserves duplicate-freedom of the keys. -/
theorem objSet_keys_nodup (m : VoteMap) (k : String) (v : Vote)
    (h : (m.map Prod.fst).Nodup) : ((objSet m k v).map Prod.fst).Nodup := by
  rw [objSet_keys]
  by_cases hmem : m.any (fun kv => kv.1 == k) = true
  · simpa [hmem] using h
  · have hnotin : k ∉ m.map Prod.fst := by
      intro hk
      rcases List.mem_map.mp hk with ⟨kv, hkv, hfst⟩
      have : m.any (fun kv => kv.1 == k) = true :=
        List.any_eq_true.mpr ⟨kv, hkv, by simp [hfst]⟩
      exact absurd this (by simpa using hmem)
    simp only [hmem, if_false]
    exact List.Nodup.append h (List.nodup_singleton k)
      (by simpa [List.disjoint_singleton] using hnotin)

/-- A spread update on a map that already holds the key keeps the length. -/
theorem objSet_length_of_mem (m : VoteMap) (k : String) (v : Vote)
    (h : m.any (fun kv => kv.1 == k) = true) :
    (objSet m k v).length = m.length := by
  rw [objSet_of_mem m k v h]; simp

/-- A successful lookup means the key occurs in the map. -/
theorem any_of_objGet_isSome (m : VoteMap) (k : String)
    (h : (objGet m k).isSome = true) : m.any (fun kv => kv.1 == k) = true := by
  by_contra hc
  rw [objGet_eq_none_of_not_any m k (any_eq_false_of_not _ _ hc)] at h
  simp at h

/-! ## Claim theorems -/

/-- C2: for every prior projection state, `setPhase(next)` sets the local phase to
`next`; if `next = VOTING` the local estimate map becomes empty regardless of its
prior contents and all estimate rows for the room are bulk-deleted, while for any
other `next` the estimate map and the topic are left unchanged — no other transition
has a side effect. -/
theorem updatePhase_spec (roomId : String) (s : RoomState) (next : GamePhase) :
    (updatePhase roomId s next).1.phase = next ∧
    (updatePhase roomId s next).1.storyTitle = s.storyTitle ∧
    (updatePhase roomId s next).1.storyDescription = s.storyDescription ∧
    (updatePhase roomId s next).1.players = s.players ∧
    (next = GamePhase.VOTING →
      (updatePhase roomId s next).1.votes = [] ∧
      (updatePhase roomId s next).2 =
        [DbOp.updateRoomPhase roomId next, DbOp.deleteRoomVotes roomId]) ∧
    (next ≠ GamePhase.VOTING →
      (updatePhase roomId s next).1.votes = s.votes ∧
      (updatePhase roomId s next).2 = [DbOp.updateRoomPhase roomId next]) := by
  refine ⟨rfl, rfl, rfl, rfl, ?_, ?_⟩
  · intro h
    subst h
    exact ⟨by simp [updatePhase], by simp [updatePhase]⟩
  · intro h
    exact ⟨by simp [updatePhase, h], by simp [updatePhase, h]⟩

/-- Witness for C2 at a concrete state: starting a round clears the map, revealing
leaves it as is. -/
theorem updatePhase_spec_witness :
    (updatePhase "r" exState GamePhase.VOTING).1.votes = [] ∧
    (updatePhase "r" exState GamePhase.REVEALED).1.votes = exState.votes ∧
    (updatePhase "r" exState GamePhase.REVEALED).2 =
      [DbOp.updateRoomPhase "r" GamePhase.REVEALED] :=
  ⟨((updatePhase_spec "r" exState GamePhase.VOTING).2.2.2.2.1 rfl).1,
   ((updatePhase_spec "r" exState GamePhase.REVEALED).2.2.2.2.2 (by decide)).1,
   ((updatePhase_spec "r" exState GamePhase.REVEALED).2.2.2.2.2 (by decide)).2⟩

/-- C3 counterexample: with a current user present but `phase = REVEALED`, `castVote`
issues no durable upsert at all — the engine does hard-block castVote outside
VOTING, contradicting the claim that the upsert is issued in every phase. -/
theorem handleVote_blocked_counterexample :
    handleVote "r" (some exPlayerA) GamePhase.REVEALED (JsValue.num 5) = none := rfl

/-- C3 (amended): `setPhase` updates the local projection immediately and issues a
durable write; `setTopic` issues only its durable write (no immediate local update);
`castVote` issues its durable upsert exactly when a current user exists and the phase
is VOTING, and no write otherwise. -/
theorem mutation_write_spec (roomId : String) (cu : Option Player) (ph : GamePhase)
    (v : JsValue) (s : RoomState) (next : GamePhase) (title desc : String) :
    ((handleVote roomId cu ph v).isSome = true ↔
      cu.isSome = true ∧ ph = GamePhase.VOTING) ∧
    updateStory roomId title desc = [DbOp.updateRoomStory roomId title desc] ∧
    (updatePhase roomId s next).1.phase = next ∧
    DbOp.updateRoomPhase roomId next ∈ (updatePhase roomId s next).2 := by
  refine ⟨?_, rfl, rfl, ?_⟩
  · cases cu with
    | none => simp [handleVote]
    | some u =>
      by_cases h : ph = GamePhase.VOTING
      · simp [handleVote, h]
      · simp [handleVote, h]
  · simp [updatePhase]

/-- Witness for C3's amended theorem: in VOTING with a user, the upsert is issued. -/
theorem mutation_write_spec_witness :
    (handleVote "r" (some exPlayerA) GamePhase.VOTING (JsValue.num 5)).isSome = true :=
  (mutation_write_spec "r" (some exPlayerA) GamePhase.VOTING (JsValue.num 5) exState
      GamePhase.VOTING "t" "d").1.mpr ⟨rfl, rfl⟩

/-- C4 counterexample: applying a `players` INSERT event for an id that is already on
the roster appends a duplicate — application is not idempotent and the roster can
hold two entries with the same id. -/
theorem playerInsert_dup_counterexample :
    (applyPlayerInsert exState exPlayerA).players.map Player.id = ["a", "a"] ∧
    ¬ ((applyPlayerInsert exState exPlayerA).players.map Player.id).Nodup := by
  exact ⟨rfl, by decide⟩

/-- C4 (amended): applying a participant-inserted change event appends the
participant to the local roster unconditionally (no presence check), leaving votes,
phase and topic unchanged; consequently, when a participant with the same id is
already present the roster ends up holding duplicate ids. -/
theorem applyPlayerInsert_spec (s : RoomState) (p : Player) :
    (applyPlayerInsert s p).players = s.players ++ [p] ∧
    (applyPlayerInsert s p).votes = s.votes ∧
    (applyPlayerInsert s p).phase = s.phase ∧
    (applyPlayerInsert s p).storyTitle = s.storyTitle ∧
    (applyPlayerInsert s p).storyDescription = s.storyDescription ∧
    (p.id ∈ s.players.map Player.id →
      ¬ ((applyPlayerInsert s p).players.map Player.id).Nodup) := by
  refine ⟨rfl, rfl, rfl, rfl, rfl, ?_⟩
  intro hmem hnodup
  have hkeys : (s.players.map Player.id ++ [p.id]).Nodup := by
    simpa [applyPlayerInsert] using hnodup
  rcases List.nodup_append.mp hkeys with ⟨-, -, hdisj⟩
  exact hdisj hmem (by simp)

/-- Witness for C4's amended theorem at a concrete duplicated insert. -/
theorem applyPlayerInsert_spec_witness :
    (applyPlayerInsert exState exPlayerA).players = exState.players ++ [exPlayerA] ∧
    ¬ ((applyPlayerInsert exState exPlayerA).players.map Player.id).Nodup :=
  ⟨(applyPlayerInsert_spec exState exPlayerA).1,
   (applyPlayerInsert_spec exState exPlayerA).2.2.2.2.2 (by decide)⟩

/-- Lookup in the vote record after the player-delete filter: for keys other than the
deleted id the lookup is unchanged, provided each entry's key equals its `playerId`
field (the shape in which every entry is ever stored). -/
theorem objGet_filter_ne (m : VoteMap) (pid k : String)
    (hwf : ∀ kv ∈ m, (kv : String × Vote).2.playerId = kv.1) (hk : k ≠ pid) :
    objGet (m.filter (fun kv => kv.2.playerId != pid)) k = objGet m k := by
  induction m with
  | nil => rfl
  | cons a t ih =>
    have ha := hwf a (by simp)
    have ht : ∀ kv ∈ t, (kv : String × Vote).2.playerId = kv.1 :=
      fun kv h => hwf kv (by simp [h])
    by_cases hap : a.2.playerId = pid
    · rw [List.filter_cons_of_neg (by simp [hap]), objGet_cons,
        if_neg (by rw [← ha, hap]; exact fun h => hk h.symm)]
      exact ih ht
    · rw [List.filter_cons_of_pos (by simp [hap]), objGet_cons, objGet_cons]
      by_cases hak : a.1 = k
      · rw [if_pos hak, if_pos hak]
      · rw [if_neg hak, if_neg hak]
        exact ih ht

/-- The deleted participant's entry is gone from the filtered vote record. -/
theorem objGet_filter_self (m : VoteMap) (pid : String)
    (hwf : ∀ kv ∈ m, (kv : String × Vote).2.playerId = kv.1) :
    objGet (m.filter (fun kv => kv.2.playerId != pid)) pid = none := by
  cases hfind : (m.filter (fun kv => kv.2.playerId != pid)).find?
      (fun kv => kv.1 == pid) with
  | none => simp [objGet, hfind]
  | some kv =>
    have hmem := List.mem_of_find?_eq_some hfind
    have hpred : kv.1 = pid := by simpa using List.find?_some hfind
    rcases List.mem_filter.mp hmem with ⟨hmem', hne⟩
    have hid := hwf kv hmem'
    have : kv.2.playerId ≠ pid := by simpa using hne
    exact absurd (hid.trans hpred) this

/-- C9: applying a participant-deleted change event for participant `pid` removes
`pid` from the local roster and removes the estimate keyed to `pid` (if present),
while every other roster entry and every estimate keyed to a different participant id
is left unchanged (the roster keeps its relative order, and phase/topic are
untouched). The well-formedness hypothesis records that every stored vote entry is
keyed by its own `playerId`, which is how both the bootstrap and the change handler
store entries. -/
theorem applyPlayerDelete_spec (s : RoomState) (pid : String)
    (hwf : ∀ kv ∈ s.votes, (kv : String × Vote).2.playerId = kv.1) :
    (∀ p : Player, p ∈ (applyPlayerDelete s pid).players ↔ p ∈ s.players ∧ p.id ≠ pid) ∧
    (applyPlayerDelete s pid).players.Sublist s.players ∧
    objGet (applyPlayerDelete s pid).votes pid = none ∧
    (∀ k, k ≠ pid → objGet (applyPlayerDelete s pid).votes k = objGet s.votes k) ∧
    (applyPlayerDelete s pid).phase = s.phase ∧
    (applyPlayerDelete s pid).storyTitle = s.storyTitle ∧
    (applyPlayerDelete s pid).storyDescription = s.storyDescription := by
  refine ⟨?_, ?_, ?_, ?_, rfl, rfl, rfl⟩
  · intro p
    simp [applyPlayerDelete, List.mem_filter]
  · exact List.filter_sublist _
  · exact objGet_filter_self s.votes pid hwf
  · exact fun k hk => objGet_filter_ne s.votes pid k hwf hk

/-- Witness for C9 at a concrete state: deleting `"a"` clears the roster and the
keyed estimate. -/
theorem applyPlayerDelete_spec_witness :
    objGet (applyPlayerDelete exState "a").votes "a" = none ∧
    objGet (applyPlayerDelete exState "a").votes "b" = objGet exState.votes "b" ∧
    (exPlayerA ∈ (applyPlayerDelete exState "a").players ↔
      exPlayerA ∈ exState.players ∧ exPlayerA.id ≠ "a") :=
  ⟨(applyPlayerDelete_spec exState "a" (by decide)).2.2.1,
   (applyPlayerDelete_spec exState "a" (by decide)).2.2.2.1 "b" (by decide),
   (applyPlayerDelete_spec exState "a" (by decide)).1 exPlayerA⟩

/-- C5 counterexample: a reachable state whose roster holds a duplicated participant
id (see the C4 counterexample) makes the claimed biconditional fail: `allVoted` is
true although only 1 distinct participant id has an entry in the estimate map while
the roster has size 2 — under either reading of "distinct participant ids" (distinct
keys of the map, or distinct roster ids with entries). -/
theorem allVoted_counterexample :
    allVoted exStateDup = true ∧
    exStateDup.players.length = 2 ∧
    (exStateDup.votes.map Prod.fst).dedup.length = 1 ∧
    ((exStateDup.players.map Player.id).dedup.filter
      (fun i => (objGet exStateDup.votes i).isSome)).length = 1 ∧
    (1 : Nat) ≠ 2 := by
  refine ⟨?_, rfl, ?_, ?_, by decide⟩
  · decide
  · decide
  · decide

/-- C5 (amended): `allVoted` is false whenever the roster is empty, and for a
non-empty roster it is true iff every roster entry's participant id has an entry in
the estimate map (for a duplicate-free roster whose votes all belong to roster
members this coincides with "exactly n distinct participant ids have entries"). -/
theorem allVoted_spec (s : RoomState) :
    (s.players = [] → allVoted s = false) ∧
    (s.players ≠ [] →
      (allVoted s = true ↔ ∀ p ∈ s.players, (objGet s.votes p.id).isSome = true)) := by
  constructor
  · intro h
    simp [allVoted, h]
  · intro h
    simp [allVoted, List.length_pos.mpr h, List.all_eq_true]

/-- Witness for C5's amended theorem at a concrete state where everyone voted. -/
theorem allVoted_spec_witness :
    allVoted exState = true ↔ ∀ p ∈ exState.players, (objGet exState.votes p.id).isSome = true :=
  (allVoted_spec exState).2 (by decide)

/-- C1: in the VOTING phase, casting a vote via `castVote` for the current user `u`
with value `v` issues an upsert row whose echo, once applied to the local projection,
yields an estimate for `u` whose stored value is loose-equal (`==`) to `v`; casting a
second vote for the same participant replaces the entry (the map size does not grow
and the lookup returns the new value), and the estimate map keeps at most one entry
per participant (duplicate-free keys, the key occurring exactly once). -/
theorem castVote_roundtrip (roomId : String) (s : RoomState) (u : Player)
    (v v2 : JsValue) (hphase : s.phase = GamePhase.VOTING)
    (hnodup : (s.votes.map Prod.fst).Nodup) :
    ∃ row, handleVote roomId (some u) s.phase v = some row ∧
      objGet (applyVoteUpsert s row).votes u.id =
        some { playerId := u.id, value := .str (jsToString v), reasoning := none } ∧
      jsEq (.str (jsToString v)) v = true ∧
      ((applyVoteUpsert s row).votes.map Prod.fst).Nodup ∧
      ((applyVoteUpsert s row).votes.map Prod.fst).count u.id = 1 ∧
      ∃ row2, handleVote roomId (some u) s.phase v2 = some row2 ∧
        (applyVoteUpsert (applyVoteUpsert s row) row2).votes.length =
          (applyVoteUpsert s row).votes.length ∧
        objGet (applyVoteUpsert (applyVoteUpsert s row) row2).votes u.id =
          some { playerId := u.id, value := .str (jsToString v2), reasoning := none } := by
  rw [hphase]
  refine ⟨_, rfl, ?_, ?_, ?_, ?_, _, rfl, ?_, ?_⟩
  · show objGet (objSet s.votes u.id _) u.id = _
    rw [objGet_objSet, if_pos rfl]
  · cases v <;> simp [jsEq, jsToString]
  · exact objSet_keys_nodup s.votes u.id _ hnodup
  · have hmem : u.id ∈ (objSet s.votes u.id
        { playerId := u.id, value := .str (jsToString v), reasoning := none }).map Prod.fst := by
      apply (any_key_iff _ u.id).mp
      apply any_of_objGet_isSome
      rw [objGet_objSet, if_pos rfl]
      rfl
    exact List.count_eq_one_of_mem (objSet_keys_nodup s.votes u.id _ hnodup) hmem
  · show (objSet (objSet s.votes u.id _) u.id _).length = (objSet s.votes u.id _).length
    apply objSet_length_of_mem
    apply any_of_objGet_isSome
    rw [objGet_objSet, if_pos rfl]
    rfl
  · show objGet (objSet (objSet s.votes u.id _) u.id _) u.id = _
    rw [objGet_objSet, if_pos rfl]

/-- Witness for C1 at a concrete state: the current user re-votes and the map ends at
one entry for them. -/
theorem castVote_roundtrip_witness :
    ∃ row, handleVote "r" (some exPlayerA) exState.phase (JsValue.num 5) = some row ∧
      objGet (applyVoteUpsert exState row).votes exPlayerA.id =
        some { playerId := exPlayerA.id, value := .str (jsToString (JsValue.num 5)),
               reasoning := none } ∧
      jsEq (.str (jsToString (JsValue.num 5))) (JsValue.num 5) = true ∧
      ((applyVoteUpsert exState row).votes.map Prod.fst).Nodup ∧
      ((applyVoteUpsert exState row).votes.map Prod.fst).count exPlayerA.id = 1 ∧
      ∃ row2, handleVote "r" (some exPlayerA) exState.phase (JsValue.num 8) = some row2 ∧
        (applyVoteUpsert (applyVoteUpsert exState row) row2).votes.length =
          (applyVoteUpsert exState row).votes.length ∧
        objGet (applyVoteUpsert (applyVoteUpsert exState row) row2).votes exPlayerA.id =
          some { playerId := exPlayerA.id, value := .str (jsToString (JsValue.num 8)),
                 reasoning := none } :=
  castVote_roundtrip "r" exState exPlayerA (JsValue.num 5) (JsValue.num 8) rfl (by decide)

/-- The strict-comparison `reduce` keeps the first minimizer: the seeded fold splits
its input as `pre ++ result :: suf` where every element before the result is strictly
farther from `x` and every element after it is no closer. -/
theorem foldNearest_split (x : ℚ) (l : List ℚ) :
    ∀ a : ℚ, ∃ pre suf,
      a :: l = pre ++
        (l.foldl (fun prev curr => if |curr - x| < |prev - x| then curr else prev) a) :: suf ∧
      (∀ m ∈ pre,
        |l.foldl (fun prev curr => if |curr - x| < |prev - x| then curr else prev) a - x|
          < |m - x|) ∧
      (∀ m ∈ suf,
        |l.foldl (fun prev curr => if |curr - x| < |prev - x| then curr else prev) a - x|
          ≤ |m - x|) := by
  induction l with
  | nil => exact fun a => ⟨[], [], rfl, by simp, by simp⟩
  | cons c t ih =>
    intro a
    rw [List.foldl_cons]
    by_cases hc : |c - x| < |a - x|
    · rw [if_pos hc]
      obtain ⟨pre, suf, hsplit, hpre, hsuf⟩ := ih c
      refine ⟨a :: pre, suf, ?_, ?_, hsuf⟩
      · rw [List.cons_append, ← hsplit]
      · intro m hm
        rcases List.mem_cons.mp hm with rfl | hm
        · have hrc :
              |t.foldl (fun prev curr => if |curr - x| < |prev - x| then curr else prev) c - x|
                ≤ |c - x| := by
            cases pre with
            | nil =>
              have := hsplit
              rw [List.nil_append] at this
              injection this with h1 _
              rw [← h1]
            | cons p ps =>
              have hp : p = c := by
                have := hsplit
                rw [List.cons_append] at this
                injection this with h1 _
                exact h1.symm
              exact le_of_lt (hp ▸ hpre p (List.mem_cons_self p ps))
          exact lt_of_le_of_lt hrc hc
        · exact hpre m hm
    · rw [if_neg hc]
      obtain ⟨pre, suf, hsplit, hpre, hsuf⟩ := ih a
      cases pre with
      | nil =>
        rw [List.nil_append] at hsplit
        injection hsplit with h1 h2
        refine ⟨[], c :: suf, ?_, by simp, ?_⟩
        · rw [List.nil_append, ← h1, h2]
        · intro m hm
          rcases List.mem_cons.mp hm with rfl | hm
          · rw [← h1]
            exact le_of_not_lt hc
          · exact hsuf m hm
      | cons p ps =>
        rw [List.cons_append] at hsplit
        injection hsplit with h1 h2
        refine ⟨a :: c :: ps, suf, ?_, ?_, hsuf⟩
        · rw [List.cons_append, List.cons_append, ← h2]
        · intro m hm
          have hra :
              |t.foldl (fun prev curr => if |curr - x| < |prev - x| then curr else prev) a - x|
                < |a - x| := by
            have := hpre p (List.mem_cons_self p ps)
            rw [← h1] at this
            exact this
          rcases List.mem_cons.mp hm with rfl | hm
          · exact hra
          · rcases List.mem_cons.mp hm with rfl | hm
            · exact lt_of_lt_of_le hra (le_of_not_lt hc)
            · exact hpre m (List.mem_cons_of_mem p hm)

/-- C6: for every numeric oracle value outside the permitted scale, the snapped value
is a scale member at minimal absolute distance, and every scale member listed before
it is strictly farther (ties resolve to the earliest member in scale order); in
particular value 10 snaps to 8 and value 4 snaps to 3. -/
theorem snapPoints_spec (points : ℚ) (h : points ∉ validPoints) :
    snapPoints points ∈ validPoints ∧
    (∀ m ∈ validPoints, |snapPoints points - points| ≤ |m - points|) ∧
    (∃ pre suf, validPoints = pre ++ snapPoints points :: suf ∧
      ∀ m ∈ pre, |snapPoints points - points| < |m - points|) ∧
    snapPoints 10 = 8 ∧ snapPoints 4 = 3 := by
  have hs : snapPoints points = nearestScale points := by
    rw [snapPoints, if_neg h]
  have hns : nearestScale points =
      ([2, 3, 5, 8, 13, 21] : List ℚ).foldl
        (fun prev curr => if |curr - points| < |prev - points| then curr else prev) 1 := rfl
  obtain ⟨pre, suf, hsplit, hpre, hsuf⟩ := foldNearest_split points [2, 3, 5, 8, 13, 21] 1
  have hv : validPoints = pre ++ snapPoints points :: suf := by
    rw [hs, hns]
    exact hsplit
  refine ⟨?_, ?_, ⟨pre, suf, hv, ?_⟩,
    by norm_num [snapPoints, validPoints, nearestScale, List.foldl, abs],
    by norm_num [snapPoints, validPoints, nearestScale, List.foldl, abs]⟩
  · rw [hv]
    exact List.mem_append.mpr (Or.inr (List.mem_cons_self _ _))
  · intro m hm
    rw [hv] at hm
    rcases List.mem_append.mp hm with hm | hm
    · exact le_of_lt (by rw [hs, hns]; exact hpre m hm)
    · rcases List.mem_cons.mp hm with rfl | hm
      · exact le_refl _
      · rw [hs, hns]
        exact hsuf m hm
  · intro m hm
    rw [hs, hns]
    exact hpre m hm

/-- Witness for C6 at the concrete oracle output 10 (not a scale member). -/
theorem snapPoints_spec_witness :
    (10 : ℚ) ∉ validPoints ∧ snapPoints 10 ∈ validPoints ∧
    (∀ m ∈ validPoints, |snapPoints 10 - 10| ≤ |m - 10|) :=
  ⟨by decide, (snapPoints_spec 10 (by decide)).1, (snapPoints_spec 10 (by decide)).2.1⟩

/-- C7: for a topic with a non-empty title or description, every failure class of the
oracle call — unavailable/unconfigured client, a throwing call, a missing payload, or
a payload that fails to parse — yields the fixed fallback value 8 with one of the two
fallback rationales; `generateAiVote` is a total function, so no failure propagates
an error to the caller. -/
theorem generateAiVote_fallback (storyTitle storyDescription : String) (pick : Nat)
    (o : OracleOutcome)
    (hstory : ¬(jsTrim storyTitle = "" ∧ jsTrim storyDescription = ""))
    (hfail : o = .noClient ∨ o = .throws ∨ o = .emptyText ∨ o = .parseFails) :
    (generateAiVote storyTitle storyDescription pick o).points = 8 ∧
    ((generateAiVote storyTitle storyDescription pick o).reasoning = offlineReasoning ∨
      (generateAiVote storyTitle storyDescription pick o).reasoning = errorReasoning) := by
  rcases hfail with rfl | rfl | rfl | rfl <;> simp [generateAiVote, hstory]

/-- Witness for C7 at a concrete topic and a throwing oracle call. -/
theorem generateAiVote_fallback_witness :
    (generateAiVote "Implement login" "" 0 OracleOutcome.throws).points = 8 ∧
    ((generateAiVote "Implement login" "" 0 OracleOutcome.throws).reasoning =
        offlineReasoning ∨
      (generateAiVote "Implement login" "" 0 OracleOutcome.throws).reasoning =
        errorReasoning) :=
  generateAiVote_fallback "Implement login" "" 0 .throws (by decide)
    (Or.inr (Or.inl rfl))

/-- The scheduling effect's guard, spelled out as the four conditions of the spec. -/
theorem schedulerFires_iff (s : RoomState) (proc : Bool) :
    schedulerFires s proc = true ↔
      (s.phase = GamePhase.VOTING ∧
        (s.players.filter (fun p => p.type == UserType.AI)).length > 0 ∧
        proc = false ∧
        ∃ p ∈ s.players.filter (fun p => p.type == UserType.AI),
          (objGet s.votes p.id).isSome = false) := by
  simp only [schedulerFires, Bool.and_eq_true, decide_eq_true_eq, Bool.not_eq_true']
  constructor
  · rintro ⟨h1, ⟨h2, h3⟩, h4⟩
    refine ⟨h1, h2, h3, ?_⟩
    rw [← Bool.not_eq_true, List.all_eq_true] at h4
    push_neg at h4
    rcases h4 with ⟨p, hp, hpx⟩
    exact ⟨p, hp, by simpa using hpx⟩
  · rintro ⟨h1, h2, h3, p, hp, hfalse⟩
    refine ⟨h1, ⟨h2, h3⟩, ?_⟩
    rw [← Bool.not_eq_true, List.all_eq_true]
    push_neg
    exact ⟨p, hp, by simp [hfalse]⟩

/-- The ids a voting pass writes to: every AI player on the roster that has a known
persona, in roster order, regardless of existing estimates. -/
theorem triggerAiVotes_ids (roomId : String) (s : RoomState)
    (personas : List AiPersona) (oracle : AiPersona → AiVote)
    (hph : s.phase = GamePhase.VOTING) :
    (triggerAiVotes roomId s personas oracle).map VoteRow.player_id =
      ((s.players.filter (fun p => p.type == UserType.AI)).filter
        (fun p => (personas.find? (fun q => q.id == p.id)).isSome)).map Player.id := by
  rw [triggerAiVotes, if_neg (by simp [hph])]
  by_cases hlen : (s.players.filter (fun p => p.type == UserType.AI)).length = 0
  · rw [if_pos hlen, List.length_eq_zero.mp hlen]
    rfl
  · rw [if_neg hlen]
    generalize s.players.filter (fun p => p.type == UserType.AI) = l
    induction l with
    | nil => rfl
    | cons p t ih =>
      rw [List.filterMap_cons, List.filter_cons]
      cases hf : personas.find? (fun q => q.id == p.id) with
      | none => simp [hf, ih]
      | some q => simp [hf, ih]

/-- C8 counterexample: a VOTING state with two AI participants of which `ai-senior`
already has an estimate — the pass still commits a vote for `ai-senior`, not only
for the participants lacking one. -/
theorem triggerAiVotes_counterexample :
    (objGet exStateAi.votes "ai-senior").isSome = true ∧
    (triggerAiVotes "r" exStateAi AI_PERSONAS constOracle).map VoteRow.player_id =
      ["ai-senior", "ai-junior"] := by
  exact ⟨rfl, rfl⟩

/-- C8 (amended): the scheduler fires a voting pass iff phase = VOTING, at least one
simulated participant exists, no pass is in flight, and at least one simulated
participant lacks an estimate; the fired pass calls the oracle and commits a vote for
every simulated participant with a known persona, in roster order — including those
that already have a current estimate (their rows are overwritten by the upsert). -/
theorem scheduler_pass_spec (s : RoomState) (proc : Bool) (roomId : String)
    (personas : List AiPersona) (oracle : AiPersona → AiVote) :
    (schedulerFires s proc = true ↔
      (s.phase = GamePhase.VOTING ∧
        (s.players.filter (fun p => p.type == UserType.AI)).length > 0 ∧
        proc = false ∧
        ∃ p ∈ s.players.filter (fun p => p.type == UserType.AI),
          (objGet s.votes p.id).isSome = false)) ∧
    (s.phase = GamePhase.VOTING →
      (triggerAiVotes roomId s personas oracle).map VoteRow.player_id =
        ((s.players.filter (fun p => p.type == UserType.AI)).filter
          (fun p => (personas.find? (fun q => q.id == p.id)).isSome)).map Player.id) :=
  ⟨schedulerFires_iff s proc, triggerAiVotes_ids roomId s personas oracle⟩

/-- Witness for C8's amended theorem at a concrete state: the guard fires and the
pass covers both AI participants. -/
theorem scheduler_pass_spec_witness :
    schedulerFires exStateAi false = true ∧
    (triggerAiVotes "r" exStateAi AI_PERSONAS constOracle).map VoteRow.player_id =
      ((exStateAi.players.filter (fun p => p.type == UserType.AI)).filter
        (fun p => (AI_PERSONAS.find? (fun q => q.id == p.id)).isSome)).map Player.id :=
  ⟨(scheduler_pass_spec exStateAi false "r" AI_PERSONAS constOracle).1.mpr
      (by refine ⟨rfl, by decide, rfl, ?_⟩
          exact ⟨{ id := "ai-junior", name := "Mike (Junior Dev)", type := .AI,
                   avatarUrl := "u" }, by decide, by decide⟩),
   (scheduler_pass_spec exStateAi false "r" AI_PERSONAS constOracle).2 rfl⟩

/-- C10: every vote value committed durably — by `castVote` for a human or by the
scheduler's pass for a simulated participant — is the decimal string form
`value.toString()` of the chosen value, never a number; and applying the change-feed
echo of any string-valued row puts a string-valued estimate into the local
projection. -/
theorem committed_value_is_string (roomId : String) (cu : Option Player)
    (ph : GamePhase) (v : JsValue) (s s' : RoomState)
    (personas : List AiPersona) (oracle : AiPersona → AiVote) :
    (∀ row, handleVote roomId cu ph v = some row →
      row.value = JsValue.str (jsToString v)) ∧
    (∀ row ∈ triggerAiVotes roomId s personas oracle,
      ∃ q : ℚ, row.value = JsValue.str (jsToString (JsValue.num q))) ∧
    (∀ row : VoteRow, (∃ t, row.value = JsValue.str t) →
      ∃ t, objGet (applyVoteUpsert s' row).votes row.player_id =
        some { playerId := row.player_id, value := JsValue.str t,
               reasoning := row.reasoning }) := by
  refine ⟨?_, ?_, ?_⟩
  · intro row h
    cases cu with
    | none => exact Option.noConfusion h
    | some u =>
      by_cases hp : ph = GamePhase.VOTING
      · rw [handleVote, if_neg (by simp [hp])] at h
        injection h with h
        rw [← h]
      · rw [handleVote, if_pos hp] at h
        exact Option.noConfusion h
  · intro row hrow
    rw [triggerAiVotes] at hrow
    by_cases hph : s.phase ≠ GamePhase.VOTING
    · rw [if_pos hph] at hrow
      cases hrow
    · rw [if_neg hph] at hrow
      by_cases hlen : (s.players.filter (fun p => p.type == UserType.AI)).length = 0
      · rw [if_pos hlen] at hrow
        cases hrow
      · rw [if_neg hlen] at hrow
        rcases List.mem_filterMap.mp hrow with ⟨player, hmem, hf⟩
        cases hfind : personas.find? (fun q => q.id == player.id) with
        | none =>
          rw [hfind] at hf
          exact Option.noConfusion hf
        | some persona =>
          rw [hfind] at hf
          injection hf with hf
          exact ⟨(oracle persona).points, by rw [← hf]⟩
  · rintro row ⟨t, ht⟩
    refine ⟨t, ?_⟩
    show objGet (objSet s'.votes row.player_id _) row.player_id = _
    rw [objGet_objSet, if_pos rfl, ht]

/-- Witness for C10: a concrete human vote row and a concrete echoed row. -/
theorem committed_value_is_string_witness :
    (∀ row, handleVote "r" (some exPlayerA) GamePhase.VOTING (JsValue.num 5) = some row →
      row.value = JsValue.str (jsToString (JsValue.num 5))) ∧
    (∃ t, objGet (applyVoteUpsert exState
        { id := "r-a", room_id := "r", player_id := "a",
          value := JsValue.str "5", reasoning := none }).votes "a" =
      some { playerId := "a", value := JsValue.str t, reasoning := none }) :=
  ⟨(committed_value_is_string "r" (some exPlayerA) GamePhase.VOTING (JsValue.num 5)
      exState exState AI_PERSONAS constOracle).1,
   (committed_value_is_string "r" (some exPlayerA) GamePhase.VOTING (JsValue.num 5)
      exState exState AI_PERSONAS constOracle).2.2
     { id := "r-a", room_id := "r", player_id := "a",
       value := JsValue.str "5", reasoning := none } ⟨"5", rfl⟩⟩

end PlanningPoker
